import Mathlib

/-!
Shallow embedding of the per-client rate-limiter middleware of
m5lapp/go-service-toolkit (src/webapp/middleware.go, function RateLimit),
together with the pieces it calls into: the rate-limiter configuration
struct (src/config/config.go, type Limiter), the token bucket it delegates
to (golang.org/x/time/rate, methods NewLimiter / Allow), the client
identifier derivation (github.com/tomasen/realip, FromRequest), and the
rejection responder (webapp.RateLimitExceededResponse backed by
jsonz.WriteJSendFail).

Time is modelled as rational seconds and token counts as rationals: the
x/time/rate library stores tokens as a float and refills continuously at
`limit` tokens per second; the claims under study concern exact small
scenarios, so the continuous idealisation over ℚ is used.
-/

namespace GoServiceToolkit

/-- Config.Limiter mirrors `config.Limiter`: RPS is the refill rate in
requests per second (a float in Go, a rational here), Burst the bucket
capacity (a Go int, modelled as ℤ), Active the on/off toggle. -/
structure Config.Limiter where
  RPS : ℚ
  Burst : ℤ
  Active : Bool
deriving DecidableEq, Repr

/-- Rate.Limiter mirrors the state of a `golang.org/x/time/rate.Limiter`:
the refill rate `limit` (tokens per second), the capacity `burst`, the
token count at time `last`, and `last` itself (seconds). -/
structure Rate.Limiter where
  limit : ℚ
  burst : ℤ
  tokens : ℚ
  last : ℚ
deriving DecidableEq, Repr

/-- Rate.Limiter.advance mirrors `Limiter.advance`: the token count brought
forward to time `now`, growing by `limit` tokens per elapsed second and
capped at `burst`. When `now` is before `last` the library treats the
elapsed time as zero, hence the `max 0`. -/
def Rate.Limiter.advance (lim : Rate.Limiter) (now : ℚ) : ℚ :=
  min (lim.burst : ℚ) (lim.tokens + lim.limit * max 0 (now - lim.last))

/-- Rate.Limiter.allow mirrors `Limiter.Allow()` = `AllowN(now, 1)`: bring
the tokens forward to `now`, then admit iff 1 ≤ burst and at least one
token is available; on admission consume one token and record `now`, on
rejection leave the limiter state unchanged. -/
def Rate.Limiter.allow (lim : Rate.Limiter) (now : ℚ) : Bool × Rate.Limiter :=
  let t := lim.advance now
  if 1 ≤ lim.burst ∧ 1 ≤ t then
    (true, { lim with tokens := t - 1, last := now })
  else
    (false, lim)

/-- Rate.newLimiter mirrors the state a limiter built by
`rate.NewLimiter(r, b)` is in when it is first consulted: the Go struct
starts with zero tokens and the zero time as `last`, so the first call to
`advance` (which happens at wall-clock `now`, an astronomically large
elapsed time) saturates the token count at `burst` for any positive rate.
We embed that saturated state directly, stamped with the creation time. -/
def Rate.newLimiter (r : ℚ) (b : ℤ) (now : ℚ) : Rate.Limiter :=
  { limit := r, burst := b, tokens := (b : ℚ), last := now }

/-- ClientState mirrors the per-client struct `client` declared inside
`RateLimit`: a token-bucket limiter and a last-seen timestamp. -/
structure ClientState where
  limiter : Rate.Limiter
  lastSeen : ℚ
deriving DecidableEq, Repr

/-- Registry models the closure-captured `clients` map from client
identifier to ClientState. -/
def Registry := String → Option ClientState

/-- Registry.empty models `make(map[string]*client)`. -/
def Registry.empty : Registry := fun _ => none

/-- Registry.update models `clients[ip] = c` (and in-place mutation through
the stored pointer). -/
def Registry.update (reg : Registry) (ip : String) (c : ClientState) : Registry :=
  fun k => if k = ip then some c else reg k

/-- Registry.sweep models one pass of the cleanup goroutine's loop body:
under the lock, every entry whose last-seen timestamp is more than three
minutes (180 seconds) in the past is deleted, every other entry is kept. -/
def Registry.sweep (reg : Registry) (now : ℚ) : Registry :=
  fun k =>
    match reg k with
    | none => none
    | some c => if now - c.lastSeen > 180 then none else some c

/-- sweepDemoRegistry is a concrete registry used to exercise the sweep: at
time 300 the entry "old" was last seen at second 60 (four minutes ago) and
the entry "fresh" at second 240 (one minute ago). -/
def sweepDemoRegistry : Registry := fun k =>
  if k = "old" then some ⟨⟨2, 4, 4, 60⟩, 60⟩
  else if k = "fresh" then some ⟨⟨2, 4, 4, 240⟩, 240⟩
  else none

/-- Outcome models what the handler returned by `RateLimit` does with one
request: either `next.ServeHTTP` is invoked (the request is forwarded
downstream), or the handler short-circuits with an HTTP response of the
given status whose JSend `data` payload is the given key/value map. -/
inductive Outcome where
  | forwarded : Outcome
  | rejected : ℕ → List (String × String) → Outcome
deriving DecidableEq, Repr

/-- rateLimitExceededBody is the data map built by
`WebApp.RateLimitExceededResponse`. -/
def rateLimitExceededBody : List (String × String) :=
  [("error", "Rate limit exceeded"),
   ("details", "Large numbers of requests from the same IP address are limited over time"),
   ("action", "Wait a while and then try again, or send fewer requests")]

/-- rateLimitExceededResponse is the outcome produced by
`app.RateLimitExceededResponse(w, r)`: HTTP 429 with the body above. -/
def rateLimitExceededResponse : Outcome :=
  Outcome.rejected 429 rateLimitExceededBody

/-- writeJSendFail mirrors `jsonz.WriteJSendFail`: statuses outside 400–499
are refused with an error, otherwise the data is wrapped in a JSend "fail"
envelope and written. -/
def writeJSendFail (status : ℕ) (data : List (String × String)) :
    Except String (String × List (String × String)) :=
  if status < 400 ∨ 499 < status then
    Except.error "http status code out of range 400 to 499"
  else
    Except.ok ("fail", data)

/-- fromRequest models `realip.FromRequest` on a request carrying no
X-Real-Ip / X-Forwarded-For headers: the client key is the host part of
`r.RemoteAddr`. `hostPart` abstracts the `net.SplitHostPort` standard
library call, with `none` standing for a parse failure; the Go code
discards the error and returns the zero-valued string, so every
unresolvable address yields the single fixed key "". -/
def fromRequest (hostPart : Option String) : String :=
  match hostPart with
  | some host => host
  | none => ""

/-- rateLimitStep is the body of the `http.HandlerFunc` returned by
`RateLimit`, as a function of the limiter configuration, the current
registry, the derived client identifier and the current time. When the
limiter is active: look the client up, creating a fresh
`rate.NewLimiter(cfg.RPS, cfg.Burst)` entry if absent; stamp
`lastSeen = now`; consult `limiter.Allow()`; on rejection respond 429 and
do not forward, on admission forward. When inactive, forward untouched. -/
def rateLimitStep (cfg : Config.Limiter) (reg : Registry) (ip : String)
    (now : ℚ) : Outcome × Registry :=
  if cfg.Active then
    let c0 : ClientState :=
      match reg ip with
      | some c => c
      | none => { limiter := Rate.newLimiter cfg.RPS cfg.Burst now, lastSeen := 0 }
    let res := c0.limiter.allow now
    let reg2 := reg.update ip { limiter := res.2, lastSeen := now }
    if res.1 then
      (Outcome.forwarded, reg2)
    else
      (rateLimitExceededResponse, reg2)
  else
    (Outcome.forwarded, reg)

/-- runTrace folds rateLimitStep over a list of (client identifier, time)
requests, collecting each request's outcome and the final registry. -/
def runTrace (cfg : Config.Limiter) (reg : Registry) :
    List (String × ℚ) → List Outcome × Registry
  | [] => ([], reg)
  | p :: ps =>
    let s := rateLimitStep cfg reg p.1 p.2
    let rest := runTrace cfg s.2 ps
    (s.1 :: rest.1, rest.2)

/-- Event records the order of lock operations and I/O actions performed by
the handler body for one request, as they appear in the source. -/
inductive Event where
  | lock : Event
  | unlock : Event
  | respond : ℕ → Event
  | callNext : Event
deriving DecidableEq, Repr

/-- rateLimitEvents is the sequence of lock and I/O events the handler body
performs for one request, transcribed from the source order: when active,
`mu.Lock()` precedes the map work; on rejection `mu.Unlock()` is called
before `app.RateLimitExceededResponse` writes the response and the handler
returns; on admission `mu.Unlock()` is called before `next.ServeHTTP`.
When inactive the handler goes straight to `next.ServeHTTP`. -/
def rateLimitEvents (cfg : Config.Limiter) (reg : Registry) (ip : String)
    (now : ℚ) : List Event :=
  if cfg.Active then
    let c0 : ClientState :=
      match reg ip with
      | some c => c
      | none => { limiter := Rate.newLimiter cfg.RPS cfg.Burst now, lastSeen := 0 }
    let res := c0.limiter.allow now
    if res.1 then
      [Event.lock, Event.unlock, Event.callNext]
    else
      [Event.lock, Event.unlock, Event.respond 429]
  else
    [Event.callNext]

/-- ioUnderLock scans an event list with a lock-depth counter and reports
whether any I/O event (a response write or a downstream handler call)
occurs while the lock depth is positive. -/
def ioUnderLock : ℕ → List Event → Bool
  | _, [] => false
  | d, Event.lock :: es => ioUnderLock (d + 1) es
  | d, Event.unlock :: es => ioUnderLock (d - 1) es
  | d, Event.respond _ :: es => if 0 < d then true else ioUnderLock d es
  | d, Event.callNext :: es => if 0 < d then true else ioUnderLock d es

/-! Basic lemmas about one handler step. -/

theorem step_inactive (cfg : Config.Limiter) (reg : Registry) (ip : String)
    (now : ℚ) (h : cfg.Active = false) :
    rateLimitStep cfg reg ip now = (Outcome.forwarded, reg) := by
  simp [rateLimitStep, h]

theorem step_found (cfg : Config.Limiter) (reg : Registry) (ip : String)
    (now : ℚ) (c : ClientState) (hA : cfg.Active = true) (hc : reg ip = some c) :
    rateLimitStep cfg reg ip now =
      if (c.limiter.allow now).1 then
        (Outcome.forwarded, reg.update ip ⟨(c.limiter.allow now).2, now⟩)
      else
        (rateLimitExceededResponse, reg.update ip ⟨(c.limiter.allow now).2, now⟩) := by
  simp [rateLimitStep, hA, hc]

theorem step_fresh (cfg : Config.Limiter) (reg : Registry) (ip : String)
    (now : ℚ) (hA : cfg.Active = true) (hc : reg ip = none) :
    rateLimitStep cfg reg ip now =
      if ((Rate.newLimiter cfg.RPS cfg.Burst now).allow now).1 then
        (Outcome.forwarded,
          reg.update ip ⟨((Rate.newLimiter cfg.RPS cfg.Burst now).allow now).2, now⟩)
      else
        (rateLimitExceededResponse,
          reg.update ip ⟨((Rate.newLimiter cfg.RPS cfg.Burst now).allow now).2, now⟩) := by
  simp [rateLimitStep, hA, hc]

theorem advance_no_elapsed (lim : Rate.Limiter) (now : ℚ) (h : lim.last = now) :
    lim.advance now = min (lim.burst : ℚ) lim.tokens := by
  simp [Rate.Limiter.advance, h]

theorem newLimiter_allow (r : ℚ) (b : ℤ) (now : ℚ) :
    (Rate.newLimiter r b now).allow now =
      if 1 ≤ b then (true, ⟨r, b, (b : ℚ) - 1, now⟩) else (false, ⟨r, b, (b : ℚ), now⟩) := by
  have hadv : (Rate.Limiter.advance ⟨r, b, (b : ℚ), now⟩ now) = (b : ℚ) := by
    simp [Rate.Limiter.advance]
  by_cases hb : 1 ≤ b
  · have hb1 : (1 : ℚ) ≤ ((b : ℤ) : ℚ) := by exact_mod_cast hb
    simp [Rate.Limiter.allow, Rate.newLimiter, hadv, hb, hb1]
  · simp [Rate.Limiter.allow, Rate.newLimiter, hadv, hb]

theorem allow_reject_state (lim : Rate.Limiter) (now : ℚ)
    (h : (lim.allow now).1 = false) : (lim.allow now).2 = lim := by
  unfold Rate.Limiter.allow at h ⊢
  by_cases hc : 1 ≤ lim.burst ∧ 1 ≤ lim.advance now
  · simp [hc] at h
  · simp [hc]

theorem step_outcome_cases (cfg : Config.Limiter) (reg : Registry) (ip : String)
    (now : ℚ) :
    (rateLimitStep cfg reg ip now).1 = Outcome.forwarded ∨
      (rateLimitStep cfg reg ip now).1 = rateLimitExceededResponse := by
  unfold rateLimitStep
  by_cases hA : cfg.Active
  · cases hr : reg ip <;>
      · simp only [hA, if_true, hr]
        split <;> simp
  · simp [hA]

theorem step_frame (cfg : Config.Limiter) (reg : Registry) (ip k : String)
    (now : ℚ) (h : k ≠ ip) :
    (rateLimitStep cfg reg ip now).2 k = reg k := by
  unfold rateLimitStep
  by_cases hA : cfg.Active
  · cases hr : reg ip <;>
      · simp only [hA, if_true, hr]
        split <;> simp [Registry.update, h]
  · simp [hA]

theorem step_congr (cfg : Config.Limiter) (reg1 reg2 : Registry) (ip : String)
    (now : ℚ) (h : reg1 ip = reg2 ip) :
    (rateLimitStep cfg reg1 ip now).1 = (rateLimitStep cfg reg2 ip now).1 := by
  unfold rateLimitStep
  by_cases hA : cfg.Active
  · rw [h]
    simp only [hA, if_true]
    split <;> rfl
  · simp [hA]

theorem allow_admit_same_time (r : ℚ) (b : ℤ) (t now : ℚ) (hb : 1 ≤ b)
    (ht1 : 1 ≤ t) (htb : t ≤ (b : ℚ)) :
    Rate.Limiter.allow ⟨r, b, t, now⟩ now = (true, ⟨r, b, t - 1, now⟩) := by
  have hadv : Rate.Limiter.advance ⟨r, b, t, now⟩ now = t := by
    simp [Rate.Limiter.advance, min_eq_right htb]
  simp [Rate.Limiter.allow, hadv, hb, ht1]

theorem allow_reject_same_time (r : ℚ) (b : ℤ) (t now : ℚ) (ht1 : t < 1)
    (htb : t ≤ (b : ℚ)) :
    Rate.Limiter.allow ⟨r, b, t, now⟩ now = (false, ⟨r, b, t, now⟩) := by
  have hadv : Rate.Limiter.advance ⟨r, b, t, now⟩ now = t := by
    simp [Rate.Limiter.advance, min_eq_right htb]
  simp [Rate.Limiter.allow, hadv, ht1.not_le]

theorem run_immediate_admits (cfg : Config.Limiter) (ip : String) (now : ℚ)
    (hA : cfg.Active = true) (hb : 1 ≤ cfg.Burst) (j : ℕ) :
    ∀ (t : ℚ) (reg : Registry),
      reg ip = some ⟨⟨cfg.RPS, cfg.Burst, t, now⟩, now⟩ →
      (j : ℚ) ≤ t → t ≤ (cfg.Burst : ℚ) →
      (runTrace cfg reg (List.replicate j (ip, now))).1 =
          List.replicate j Outcome.forwarded ∧
        (runTrace cfg reg (List.replicate j (ip, now))).2 ip =
          some ⟨⟨cfg.RPS, cfg.Burst, t - j, now⟩, now⟩ := by
  induction j with
  | zero =>
    intro t reg hc hj htb
    simp [runTrace, hc]
  | succ j ih =>
    intro t reg hc hj htb
    have h1j : (1 : ℚ) ≤ ((j + 1 : ℕ) : ℚ) := by exact_mod_cast Nat.succ_le_succ (Nat.zero_le j)
    have h1t : 1 ≤ t := le_trans h1j hj
    have hstep : rateLimitStep cfg reg ip now =
        (Outcome.forwarded,
          reg.update ip ⟨⟨cfg.RPS, cfg.Burst, t - 1, now⟩, now⟩) := by
      rw [step_found cfg reg ip now _ hA hc]
      simp only [allow_admit_same_time cfg.RPS cfg.Burst t now hb h1t htb]
      simp
    have hc2 : (reg.update ip ⟨⟨cfg.RPS, cfg.Burst, t - 1, now⟩, now⟩) ip =
        some ⟨⟨cfg.RPS, cfg.Burst, t - 1, now⟩, now⟩ := by
      simp [Registry.update]
    have hj2 : (j : ℚ) ≤ t - 1 := by
      push_cast at hj
      linarith
    have htb2 : t - 1 ≤ (cfg.Burst : ℚ) := by linarith
    obtain ⟨ho, hr⟩ := ih (t - 1) _ hc2 hj2 htb2
    have hcast : t - 1 - (j : ℚ) = t - ((j + 1 : ℕ) : ℚ) := by
      push_cast
      ring
    constructor
    · simp [List.replicate_succ, runTrace, hstep, ho]
    · simp only [List.replicate_succ, runTrace, hstep]
      rw [hr, hcast]

theorem runTrace_append (cfg : Config.Limiter) (reg : Registry)
    (l1 l2 : List (String × ℚ)) :
    runTrace cfg reg (l1 ++ l2) =
      ((runTrace cfg reg l1).1 ++ (runTrace cfg (runTrace cfg reg l1).2 l2).1,
        (runTrace cfg (runTrace cfg reg l1).2 l2).2) := by
  induction l1 generalizing reg with
  | nil => simp [runTrace]
  | cons p ps ih =>
    simp [runTrace, ih]

theorem allow_keeps_rate (lim : Rate.Limiter) (now : ℚ) :
    ((lim.allow now).2).limit = lim.limit ∧ ((lim.allow now).2).burst = lim.burst := by
  unfold Rate.Limiter.allow
  dsimp only
  split <;> simp

theorem allow_admit_state (lim : Rate.Limiter) (now : ℚ)
    (h : (lim.allow now).1 = true) :
    (lim.allow now).2 = { lim with tokens := lim.advance now - 1, last := now } ∧
      1 ≤ lim.burst ∧ 1 ≤ lim.advance now := by
  unfold Rate.Limiter.allow at h ⊢
  by_cases hc : 1 ≤ lim.burst ∧ 1 ≤ lim.advance now
  · rw [if_pos hc]
    exact ⟨rfl, hc⟩
  · simp [hc] at h

theorem allow_fst_true (lim : Rate.Limiter) (now : ℚ) (hb : 1 ≤ lim.burst)
    (ht : 1 ≤ lim.advance now) : (lim.allow now).1 = true := by
  simp [Rate.Limiter.allow, hb, ht]

/-- EntryInv collects the facts every ClientState stored in the registry
satisfies once the registry has been driven only by handler steps whose
request times are at most T: the bucket keeps the configured rate and burst,
its last-update time never exceeds T, and (for a positive burst capacity)
its token count is never negative. -/
def EntryInv (cfg : Config.Limiter) (T : ℚ) (reg : Registry) : Prop :=
  ∀ ip c, reg ip = some c →
    c.limiter.limit = cfg.RPS ∧ c.limiter.burst = cfg.Burst ∧
      c.limiter.last ≤ T ∧ (1 ≤ cfg.Burst → 0 ≤ c.limiter.tokens)

theorem step_entry_inv (cfg : Config.Limiter) (T : ℚ) (reg : Registry)
    (ip0 : String) (now : ℚ) (hnow : now ≤ T) (hreg : EntryInv cfg T reg) :
    EntryInv cfg T (rateLimitStep cfg reg ip0 now).2 := by
  intro ip c hc
  by_cases hip : ip = ip0
  · subst hip
    by_cases hA : cfg.Active
    · have hbase : ∀ lim : Rate.Limiter,
          lim.limit = cfg.RPS → lim.burst = cfg.Burst → lim.last ≤ T →
          (1 ≤ cfg.Burst → 0 ≤ lim.tokens) →
          ((lim.allow now).2).limit = cfg.RPS ∧
            ((lim.allow now).2).burst = cfg.Burst ∧
            ((lim.allow now).2).last ≤ T ∧
            (1 ≤ cfg.Burst → 0 ≤ ((lim.allow now).2).tokens) := by
        intro lim h1 h2 h3 h4
        rcases hok : (lim.allow now).1 with _ | _
        · rw [allow_reject_state lim now hok]
          exact ⟨h1, h2, h3, h4⟩
        · obtain ⟨hst, _, hadv⟩ := allow_admit_state lim now hok
          rw [hst]
          refine ⟨h1, h2, hnow, fun _ => ?_⟩
          show (0 : ℚ) ≤ lim.advance now - 1
          linarith
      have hupd : (rateLimitStep cfg reg ip now).2 ip =
          some ⟨(Rate.Limiter.allow (match reg ip with
            | some c => c
            | none => ⟨Rate.newLimiter cfg.RPS cfg.Burst now, 0⟩ : ClientState).limiter now).2,
            now⟩ := by
        unfold rateLimitStep
        simp only [hA, if_true]
        split <;> simp [Registry.update]
      rw [hupd] at hc
      rcases hr : reg ip with _ | c1
      · rw [hr] at hc
        injection hc with hc
        subst hc
        have := hbase (Rate.newLimiter cfg.RPS cfg.Burst now) rfl rfl hnow
          (fun hb => by
            simp only [Rate.newLimiter]
            exact_mod_cast le_trans zero_le_one (by exact_mod_cast hb))
        simpa using this
      · rw [hr] at hc
        injection hc with hc
        subst hc
        obtain ⟨h1, h2, h3, h4⟩ := hreg ip c1 hr
        simpa using hbase c1.limiter h1 h2 h3 h4
    · have : cfg.Active = false := by simpa using hA
      rw [step_inactive cfg reg ip now this] at hc
      exact hreg ip c hc
  · rw [step_frame cfg reg ip0 ip now hip] at hc
    exact hreg ip c hc

theorem runTrace_entry_inv (cfg : Config.Limiter) (T : ℚ) :
    ∀ (rs : List (String × ℚ)) (reg : Registry), EntryInv cfg T reg →
      (∀ p ∈ rs, p.2 ≤ T) → EntryInv cfg T (runTrace cfg reg rs).2 := by
  intro rs
  induction rs with
  | nil => intro reg hreg _; simpa [runTrace] using hreg
  | cons p ps ih =>
    intro reg hreg hT
    have h1 : p.2 ≤ T := hT p (List.mem_cons_self p ps)
    have h2 : ∀ q ∈ ps, q.2 ≤ T := fun q hq => hT q (List.mem_cons_of_mem p hq)
    exact ih _ (step_entry_inv cfg T reg p.1 p.2 h1 hreg) h2

theorem empty_entry_inv (cfg : Config.Limiter) (T : ℚ) :
    EntryInv cfg T Registry.empty := by
  intro ip c hc
  exact absurd hc (by simp [Registry.empty])

theorem step_entry_now (cfg : Config.Limiter) (reg : Registry) (ip : String)
    (now : ℚ) (hA : cfg.Active = true) :
    (rateLimitStep cfg reg ip now).2 ip =
      some ⟨(Rate.Limiter.allow (match reg ip with
        | some c => c
        | none => ⟨Rate.newLimiter cfg.RPS cfg.Burst now, 0⟩ : ClientState).limiter now).2,
        now⟩ := by
  unfold rateLimitStep
  simp only [hA, if_true]
  split <;> simp [Registry.update]

theorem step_populates (cfg : Config.Limiter) (reg : Registry) (ip : String)
    (now : ℚ) (hA : cfg.Active = true) :
    ((rateLimitStep cfg reg ip now).2 ip).isSome = true := by
  rw [step_entry_now cfg reg ip now hA]
  rfl

theorem step_burst_inv (cfg : Config.Limiter) (reg : Registry) (ip0 : String)
    (now : ℚ) (hreg : ∀ ip c, reg ip = some c → c.limiter.burst = cfg.Burst) :
    ∀ ip c, (rateLimitStep cfg reg ip0 now).2 ip = some c →
      c.limiter.burst = cfg.Burst := by
  intro ip c hc
  by_cases hip : ip = ip0
  · subst hip
    by_cases hA : cfg.Active
    · rw [step_entry_now cfg reg ip now hA] at hc
      injection hc with hc
      subst hc
      have hkeep := (allow_keeps_rate (match reg ip with
        | some c => c
        | none => ⟨Rate.newLimiter cfg.RPS cfg.Burst now, 0⟩ : ClientState).limiter now).2
      rw [hkeep]
      rcases hr : reg ip with _ | c1
      · rfl
      · exact hreg ip c1 hr
    · have hA2 : cfg.Active = false := by simpa using hA
      rw [step_inactive cfg reg ip now hA2] at hc
      exact hreg ip c hc
  · rw [step_frame cfg reg ip0 ip now hip] at hc
    exact hreg ip c hc

theorem runTrace_burst_inv (cfg : Config.Limiter) :
    ∀ (rs : List (String × ℚ)) (reg : Registry),
      (∀ ip c, reg ip = some c → c.limiter.burst = cfg.Burst) →
      ∀ ip c, (runTrace cfg reg rs).2 ip = some c → c.limiter.burst = cfg.Burst := by
  intro rs
  induction rs with
  | nil => intro reg hreg; simpa [runTrace] using hreg
  | cons p ps ih =>
    intro reg hreg
    exact ih _ (step_burst_inv cfg reg p.1 p.2 hreg)

theorem step_events_cases (cfg : Config.Limiter) (reg : Registry) (ip : String)
    (now : ℚ) :
    ((rateLimitStep cfg reg ip now).1 = Outcome.forwarded ∧
        (rateLimitEvents cfg reg ip now = [Event.lock, Event.unlock, Event.callNext] ∨
          rateLimitEvents cfg reg ip now = [Event.callNext])) ∨
      ((rateLimitStep cfg reg ip now).1 = rateLimitExceededResponse ∧
        rateLimitEvents cfg reg ip now =
          [Event.lock, Event.unlock, Event.respond 429]) := by
  unfold rateLimitStep rateLimitEvents
  by_cases hA : cfg.Active
  · rcases hr : reg ip with _ | c
    · simp only [hA, if_true, hr]
      by_cases hok : ((Rate.newLimiter cfg.RPS cfg.Burst now).allow now).1 <;>
        simp [hok]
    · simp only [hA, if_true, hr]
      by_cases hok : (c.limiter.allow now).1 <;> simp [hok]
  · simp [hA]

/-! Claim C1. -/

/-- C1 counterexample: with burst = 2 and the limiter active, the sequence of
N = 1 ≤ burst immediate requests is admitted, but the (N+1)-th = 2nd
immediate request from the same identifier is also admitted, not rejected
as the claim states for every N ≤ burst. -/
theorem C1_counterexample :
    (1 : ℤ) ≤ (2 : ℤ) ∧
      (runTrace ⟨1, 2, true⟩ Registry.empty [("1.2.3.4", 0), ("1.2.3.4", 0)]).1 =
        [Outcome.forwarded, Outcome.forwarded] := by
  refine ⟨by decide, ?_⟩
  norm_num [runTrace, rateLimitStep, Registry.empty, Registry.update,
    Rate.newLimiter, Rate.Limiter.allow, Rate.Limiter.advance]

/-- C1 (amended): with the limiter active and a positive rate, every sequence
of N ≤ burst requests from one client identifier arriving with no elapsed
time, starting from an absent registry entry, is fully admitted; and when N
equals the burst capacity, the (N+1)-th immediate request from the same
identifier is rejected. -/
theorem C1_burst_admitted_then_rejected (cfg : Config.Limiter) (ip : String)
    (now : ℚ) (N : ℕ) (hA : cfg.Active = true) (hR : 0 < cfg.RPS)
    (hN : (N : ℤ) ≤ cfg.Burst) :
    (runTrace cfg Registry.empty (List.replicate N (ip, now))).1 =
        List.replicate N Outcome.forwarded ∧
      ((N : ℤ) = cfg.Burst →
        (runTrace cfg Registry.empty (List.replicate (N + 1) (ip, now))).1 =
          List.replicate N Outcome.forwarded ++ [rateLimitExceededResponse]) := by
  have hempty : Registry.empty ip = none := rfl
  by_cases hN0 : N = 0
  · subst hN0
    constructor
    · simp [runTrace]
    · intro hNB
      have hB0 : cfg.Burst = 0 := by exact_mod_cast hNB.symm
      have hnb : ¬ (1 : ℤ) ≤ cfg.Burst := by omega
      have hstep := step_fresh cfg Registry.empty ip now hA hempty
      rw [newLimiter_allow] at hstep
      simp only [hnb, if_false] at hstep
      simp [runTrace, hstep]
  · obtain ⟨m, rfl⟩ := Nat.exists_eq_succ_of_ne_zero hN0
    have hb : (1 : ℤ) ≤ cfg.Burst := by
      have h1 : (1 : ℤ) ≤ ((m + 1 : ℕ) : ℤ) := by exact_mod_cast Nat.succ_le_succ (Nat.zero_le m)
      exact le_trans h1 hN
    have hstep1 : rateLimitStep cfg Registry.empty ip now =
        (Outcome.forwarded,
          Registry.empty.update ip ⟨⟨cfg.RPS, cfg.Burst, (cfg.Burst : ℚ) - 1, now⟩, now⟩) := by
      rw [step_fresh cfg Registry.empty ip now hA hempty, newLimiter_allow]
      simp [hb]
    have hc2 : (Registry.empty.update ip
          ⟨⟨cfg.RPS, cfg.Burst, (cfg.Burst : ℚ) - 1, now⟩, now⟩) ip =
        some ⟨⟨cfg.RPS, cfg.Burst, (cfg.Burst : ℚ) - 1, now⟩, now⟩ := by
      simp [Registry.update]
    have hNq : ((m : ℚ) + 1) ≤ (cfg.Burst : ℚ) := by exact_mod_cast hN
    have hjm : (m : ℚ) ≤ (cfg.Burst : ℚ) - 1 := by linarith
    have htb : (cfg.Burst : ℚ) - 1 ≤ (cfg.Burst : ℚ) := by linarith
    obtain ⟨ho, hr⟩ := run_immediate_admits cfg ip now hA hb m _ _ hc2 hjm htb
    constructor
    · simp [List.replicate_succ, runTrace, hstep1, ho]
    · intro hNB
      have htok : (cfg.Burst : ℚ) - 1 - (m : ℚ) = 0 := by
        have hq : ((m : ℚ) + 1) = (cfg.Burst : ℚ) := by exact_mod_cast hNB
        linarith
      rw [htok] at hr
      have hB0 : (0 : ℚ) ≤ (cfg.Burst : ℚ) := by linarith
      have hlast : rateLimitStep cfg
          (runTrace cfg (Registry.empty.update ip
            ⟨⟨cfg.RPS, cfg.Burst, (cfg.Burst : ℚ) - 1, now⟩, now⟩)
            (List.replicate m (ip, now))).2 ip now =
          (rateLimitExceededResponse,
            ((runTrace cfg (Registry.empty.update ip
              ⟨⟨cfg.RPS, cfg.Burst, (cfg.Burst : ℚ) - 1, now⟩, now⟩)
              (List.replicate m (ip, now))).2).update ip
              ⟨⟨cfg.RPS, cfg.Burst, 0, now⟩, now⟩) := by
        rw [step_found cfg _ ip now _ hA hr,
          allow_reject_same_time cfg.RPS cfg.Burst 0 now (by norm_num) hB0]
        simp
      rw [List.replicate_succ' (m + 1) (ip, now), runTrace_append]
      have h2 : runTrace cfg Registry.empty (List.replicate (m + 1) (ip, now)) =
          (Outcome.forwarded :: List.replicate m Outcome.forwarded,
            (runTrace cfg (Registry.empty.update ip
              ⟨⟨cfg.RPS, cfg.Burst, (cfg.Burst : ℚ) - 1, now⟩, now⟩)
              (List.replicate m (ip, now))).2) := by
        simp [List.replicate_succ, runTrace, hstep1, ho]
      rw [h2]
      simp [runTrace, hlast, List.replicate_succ]

/-- C1 witness: the amended claim instantiated at rate 1, burst 2, two
immediate requests from one fresh identifier. -/
theorem C1_burst_admitted_then_rejected_witness :
    (runTrace ⟨1, 2, true⟩ Registry.empty (List.replicate 2 ("1.2.3.4", 0))).1 =
        List.replicate 2 Outcome.forwarded ∧
      ((2 : ℤ) = (2 : ℤ) →
        (runTrace ⟨1, 2, true⟩ Registry.empty (List.replicate 3 ("1.2.3.4", 0))).1 =
          List.replicate 2 Outcome.forwarded ++ [rateLimitExceededResponse]) :=
  C1_burst_admitted_then_rejected ⟨1, 2, true⟩ "1.2.3.4" 0 2 rfl (by decide) (by decide)

/-! Claim C2. -/

/-- C2 counterexample: with rate 1 and burst 0, the first request at time 0
is rejected, and the next request from the same identifier exactly
1/ratePerSecond = 1 second later is rejected again, not admitted as the
claim states: a zero-capacity bucket never accumulates a token. -/
theorem C2_counterexample :
    (runTrace ⟨1, 0, true⟩ Registry.empty [("k", 0), ("k", 0 + 1 / 1)]).1 =
      [rateLimitExceededResponse, rateLimitExceededResponse] := by
  norm_num [runTrace, rateLimitStep, Registry.empty, Registry.update,
    Rate.newLimiter, Rate.Limiter.allow, Rate.Limiter.advance]

/-- C2 (amended): when the burst capacity is at least one, for every client
identifier whose bucket has just caused a rejection (in a registry reached
from empty by requests at times up to T), after 1/ratePerSecond seconds
elapse with no intervening requests from that identifier, the next single
request from that identifier is admitted. -/
theorem C2_refill_admits (cfg : Config.Limiter) (ip : String) (T : ℚ)
    (rs : List (String × ℚ)) (hA : cfg.Active = true) (hb : 1 ≤ cfg.Burst)
    (hR : 0 < cfg.RPS) (hT : ∀ p ∈ rs, p.2 ≤ T)
    (hrej : (rateLimitStep cfg (runTrace cfg Registry.empty rs).2 ip T).1 =
      rateLimitExceededResponse) :
    (rateLimitStep cfg
        (rateLimitStep cfg (runTrace cfg Registry.empty rs).2 ip T).2 ip
        (T + 1 / cfg.RPS)).1 = Outcome.forwarded := by
  set reg := (runTrace cfg Registry.empty rs).2 with hregdef
  have hinv : EntryInv cfg T reg :=
    runTrace_entry_inv cfg T rs Registry.empty (empty_entry_inv cfg T) hT
  rcases hr : reg ip with _ | c
  · exfalso
    have hstep := step_fresh cfg reg ip T hA hr
    rw [newLimiter_allow] at hstep
    simp only [hb, if_true] at hstep
    rw [hstep] at hrej
    simp [rateLimitExceededResponse] at hrej
  · obtain ⟨h1, h2, h3, h4⟩ := hinv ip c hr
    have htok : 0 ≤ c.limiter.tokens := h4 hb
    have hstep := step_found cfg reg ip T c hA hr
    have hfalse : (c.limiter.allow T).1 = false := by
      by_contra hne
      have htrue : (c.limiter.allow T).1 = true := by simpa using hne
      rw [hstep] at hrej
      simp [htrue, rateLimitExceededResponse] at hrej
    have hst2 : (c.limiter.allow T).2 = c.limiter := allow_reject_state _ _ hfalse
    have hreg2 : (rateLimitStep cfg reg ip T).2 ip = some ⟨c.limiter, T⟩ := by
      rw [hstep]
      simp [hfalse, hst2, Registry.update]
    have hne0 : cfg.RPS ≠ 0 := ne_of_gt hR
    have hb1 : (1 : ℚ) ≤ (cfg.Burst : ℚ) := by exact_mod_cast hb
    have hadv : 1 ≤ c.limiter.advance (T + 1 / cfg.RPS) := by
      unfold Rate.Limiter.advance
      rw [h1, h2]
      have hpos : 0 < 1 / cfg.RPS := by positivity
      have hdt : (0 : ℚ) ≤ T + 1 / cfg.RPS - c.limiter.last := by linarith
      rw [max_eq_right hdt]
      have hexp : c.limiter.tokens + cfg.RPS * (T + 1 / cfg.RPS - c.limiter.last) =
          c.limiter.tokens + cfg.RPS * (T - c.limiter.last) + 1 := by
        field_simp
        ring
      rw [hexp]
      have hnn : 0 ≤ cfg.RPS * (T - c.limiter.last) :=
        mul_nonneg (le_of_lt hR) (by linarith)
      exact le_min hb1 (by linarith)
    have hburst : 1 ≤ c.limiter.burst := by rw [h2]; exact hb
    have htrue2 := allow_fst_true c.limiter (T + 1 / cfg.RPS) hburst hadv
    rw [step_found cfg (rateLimitStep cfg reg ip T).2 ip (T + 1 / cfg.RPS)
      ⟨c.limiter, T⟩ hA hreg2]
    have htrue3 : (c.limiter.allow (T + cfg.RPS⁻¹)).1 = true := by
      rw [← one_div]
      exact htrue2
    simp [htrue3]

/-- C2 witness: rate 1, burst 1; the fresh client spends its one token at
time 0, is rejected on its second request at time 0, and is admitted again
at time 0 + 1/1. -/
theorem C2_refill_admits_witness :
    (rateLimitStep ⟨1, 1, true⟩
        (rateLimitStep ⟨1, 1, true⟩
          (runTrace ⟨1, 1, true⟩ Registry.empty [("k", 0)]).2 "k" 0).2 "k"
        (0 + 1 / 1)).1 = Outcome.forwarded :=
  C2_refill_admits ⟨1, 1, true⟩ "k" 0 [("k", 0)] rfl (by decide) (by decide)
    (by decide)
    (by norm_num [runTrace, rateLimitStep, Registry.empty, Registry.update,
      Rate.newLimiter, Rate.Limiter.allow, Rate.Limiter.advance,
      rateLimitExceededResponse])

/-! Claim C3. -/

/-- C3: when the limiter configuration has active = false, every single
request passes straight through to the downstream handler with the registry
untouched, and every sequence of requests is fully forwarded leaving the
registry exactly as empty as it started: no request is rejected and no
entry is ever created. -/
theorem C3_inactive_pass_through (cfg : Config.Limiter)
    (h : cfg.Active = false) :
    (∀ (reg : Registry) (ip : String) (now : ℚ),
        rateLimitStep cfg reg ip now = (Outcome.forwarded, reg)) ∧
      ∀ rs : List (String × ℚ),
        (runTrace cfg Registry.empty rs).1 =
            List.replicate rs.length Outcome.forwarded ∧
          (runTrace cfg Registry.empty rs).2 = Registry.empty := by
  have hrun : ∀ (rs : List (String × ℚ)) (reg : Registry),
      runTrace cfg reg rs = (List.replicate rs.length Outcome.forwarded, reg) := by
    intro rs
    induction rs with
    | nil => intro reg; simp [runTrace]
    | cons p ps ih =>
      intro reg
      simp [runTrace, step_inactive cfg reg p.1 p.2 h, ih, List.replicate_succ]
  exact ⟨fun reg ip now => step_inactive cfg reg ip now h,
    fun rs => by rw [hrun rs Registry.empty]; exact ⟨rfl, rfl⟩⟩

/-- C3 witness: an inactive limiter forwards a concrete request untouched
and a three-request burst in full. -/
theorem C3_inactive_pass_through_witness :
    rateLimitStep ⟨2, 4, false⟩ Registry.empty "1.2.3.4" 0 =
        (Outcome.forwarded, Registry.empty) ∧
      (runTrace ⟨2, 4, false⟩ Registry.empty
          (List.replicate 3 ("1.2.3.4", 0))).1 =
        List.replicate 3 Outcome.forwarded :=
  ⟨(C3_inactive_pass_through ⟨2, 4, false⟩ rfl).1 Registry.empty "1.2.3.4" 0,
    ((C3_inactive_pass_through ⟨2, 4, false⟩ rfl).2
      (List.replicate 3 ("1.2.3.4", 0))).1⟩

/-! Claim C4. -/

/-- C4: one sweep pass deletes a registry entry exactly when its last-seen
timestamp lies more than three minutes (180 seconds) in the past, and keeps
it (unchanged) otherwise. -/
theorem C4_sweep_removes_stale (reg : Registry) (now : ℚ) (ip : String)
    (c : ClientState) (hc : reg ip = some c) :
    (reg.sweep now ip = none ↔ 180 < now - c.lastSeen) ∧
      (now - c.lastSeen ≤ 180 → reg.sweep now ip = some c) := by
  unfold Registry.sweep
  rw [hc]
  constructor
  · by_cases h : 180 < now - c.lastSeen <;> simp [h]
  · intro h
    simp [not_lt.mpr h]

/-- C4 witness: sweeping at time 300, the entry last seen at second 60
(four minutes earlier) is removed, while the entry last seen at second 240
(one minute earlier) survives. -/
theorem C4_sweep_removes_stale_witness :
    (sweepDemoRegistry.sweep 300 "old" = none ↔ (180 : ℚ) < 300 - 60) ∧
      ((300 : ℚ) - 240 ≤ 180 →
        sweepDemoRegistry.sweep 300 "fresh" = some ⟨⟨2, 4, 4, 240⟩, 240⟩) :=
  ⟨(C4_sweep_removes_stale sweepDemoRegistry 300 "old" ⟨⟨2, 4, 4, 60⟩, 60⟩
      (by simp [sweepDemoRegistry])).1,
    (C4_sweep_removes_stale sweepDemoRegistry 300 "fresh" ⟨⟨2, 4, 4, 240⟩, 240⟩
      (by simp [sweepDemoRegistry])).2⟩

/-! Claim C5. -/

/-- C5: whenever the middleware rejects a request, the downstream handler
is not invoked and the response is HTTP 429 carrying exactly the
rate-limit-exceeded body (error "Rate limit exceeded", a details string,
and the wait-and-retry action); the 429 response is written exactly when
the step rejects, so no other outcome produces it. The 429 status also
passes the JSend fail-range check, so no further error arises writing it. -/
theorem C5_rejection_response (cfg : Config.Limiter) (reg : Registry)
    (ip : String) (now : ℚ) :
    (∀ (s : ℕ) (b : List (String × String)),
        (rateLimitStep cfg reg ip now).1 = Outcome.rejected s b →
          s = 429 ∧ b = rateLimitExceededBody ∧
            Event.callNext ∉ rateLimitEvents cfg reg ip now ∧
            writeJSendFail s b = Except.ok ("fail", rateLimitExceededBody)) ∧
      ((rateLimitStep cfg reg ip now).1 = rateLimitExceededResponse ↔
        Event.respond 429 ∈ rateLimitEvents cfg reg ip now) := by
  rcases step_events_cases cfg reg ip now with ⟨hf, hev⟩ | ⟨hr, hev⟩
  · constructor
    · intro s b hsb
      rw [hf] at hsb
      cases hsb
    · rw [hf]
      rcases hev with h | h <;> rw [h] <;> simp [rateLimitExceededResponse]
  · constructor
    · intro s b hsb
      rw [hr] at hsb
      have hsb2 : (429 : ℕ) = s ∧ rateLimitExceededBody = b := by
        simpa [rateLimitExceededResponse] using hsb
      obtain ⟨hs, hb⟩ := hsb2
      subst hs
      subst hb
      refine ⟨rfl, rfl, ?_, ?_⟩
      · rw [hev]
        simp
      · simp [writeJSendFail]
    · rw [hr, hev]
      simp

/-- C5 witness: with burst 0, the very first request is rejected; the
theorem then pins the status, the body, the absence of a downstream call,
and the JSend write succeeding. -/
theorem C5_rejection_response_witness :
    (429 : ℕ) = 429 ∧ rateLimitExceededBody = rateLimitExceededBody ∧
      Event.callNext ∉ rateLimitEvents ⟨1, 0, true⟩ Registry.empty "k" 0 ∧
      writeJSendFail 429 rateLimitExceededBody =
        Except.ok ("fail", rateLimitExceededBody) :=
  (C5_rejection_response ⟨1, 0, true⟩ Registry.empty "k" 0).1 429
    rateLimitExceededBody (by decide)

/-! Claim C6. -/

/-- C6: requests from one client identifier never touch another identifier's
state or decisions: after any sequence of requests all coming from A, B's
registry entry is exactly what it was, and the admit/reject outcome of B's
next request is the same as if A's requests had never happened. -/
theorem C6_client_isolation (cfg : Config.Limiter) (reg : Registry)
    (ipA ipB : String) (h : ipA ≠ ipB) (rs : List (String × ℚ))
    (hrs : ∀ p ∈ rs, p.1 = ipA) (now : ℚ) :
    (runTrace cfg reg rs).2 ipB = reg ipB ∧
      (rateLimitStep cfg (runTrace cfg reg rs).2 ipB now).1 =
        (rateLimitStep cfg reg ipB now).1 := by
  have hframe : ∀ (rs2 : List (String × ℚ)) (reg2 : Registry),
      (∀ p ∈ rs2, p.1 = ipA) → (runTrace cfg reg2 rs2).2 ipB = reg2 ipB := by
    intro rs2
    induction rs2 with
    | nil => intro reg2 _; simp [runTrace]
    | cons p ps ih =>
      intro reg2 hmem
      have hp : p.1 = ipA := hmem p (List.mem_cons_self p ps)
      have hne : ipB ≠ p.1 := by
        rw [hp]
        exact Ne.symm h
      simp only [runTrace]
      rw [ih _ (fun q hq => hmem q (List.mem_cons_of_mem p hq)),
        step_frame cfg reg2 p.1 ipB p.2 hne]
  exact ⟨hframe rs reg hrs,
    step_congr cfg _ reg ipB now (hframe rs reg hrs)⟩

/-- C6 witness: client "a" exhausting its burst-1 bucket leaves client "b"
invisible to the registry and its next decision unchanged. -/
theorem C6_client_isolation_witness :
    (runTrace ⟨1, 1, true⟩ Registry.empty [("a", 0), ("a", 0)]).2 "b" =
        Registry.empty "b" ∧
      (rateLimitStep ⟨1, 1, true⟩
          (runTrace ⟨1, 1, true⟩ Registry.empty [("a", 0), ("a", 0)]).2 "b" 0).1 =
        (rateLimitStep ⟨1, 1, true⟩ Registry.empty "b" 0).1 :=
  C6_client_isolation ⟨1, 1, true⟩ Registry.empty "a" "b" (by decide)
    [("a", 0), ("a", 0)] (by decide) 0

/-! Claim C7. -/

/-- C7: when the client identifier cannot be resolved from the source
address, the derivation yields the single fixed key "" for every such
request (one shared bucket), the active limiter still records and consults
an entry under that key rather than being bypassed, and the only outcomes
the component produces are forwarding or the deliberate 429 rejection. -/
theorem C7_fallback_shared_key (h1 h2 : Option String) (e1 : h1 = none)
    (e2 : h2 = none) (cfg : Config.Limiter) (reg : Registry) (now : ℚ)
    (hA : cfg.Active = true) :
    fromRequest h1 = "" ∧ fromRequest h1 = fromRequest h2 ∧
      ((rateLimitStep cfg reg (fromRequest h1) now).2 (fromRequest h1)).isSome =
        true ∧
      ((rateLimitStep cfg reg (fromRequest h1) now).1 = Outcome.forwarded ∨
        (rateLimitStep cfg reg (fromRequest h1) now).1 =
          rateLimitExceededResponse) := by
  subst e1
  subst e2
  exact ⟨rfl, rfl, step_populates cfg reg (fromRequest none) now hA,
    step_outcome_cases cfg reg (fromRequest none) now⟩

/-- C7 witness: two unresolvable addresses share the fixed key "" and the
active limiter handles a request under it without any error outcome. -/
theorem C7_fallback_shared_key_witness :
    fromRequest none = "" ∧ fromRequest none = fromRequest none ∧
      ((rateLimitStep ⟨1, 1, true⟩ Registry.empty (fromRequest none) 0).2
          (fromRequest none)).isSome = true ∧
      ((rateLimitStep ⟨1, 1, true⟩ Registry.empty (fromRequest none) 0).1 =
          Outcome.forwarded ∨
        (rateLimitStep ⟨1, 1, true⟩ Registry.empty (fromRequest none) 0).1 =
          rateLimitExceededResponse) :=
  C7_fallback_shared_key none none rfl rfl ⟨1, 1, true⟩ Registry.empty 0 rfl

/-! Claim C8. -/

/-- C8: with the limiter active, every request from a client identifier,
admitted or rejected, leaves a registry entry for that identifier whose
last-seen timestamp equals the current time; hence as long as request times
do not decrease, the stored last-seen timestamp never decreases. -/
theorem C8_lastSeen_monotone (cfg : Config.Limiter) (reg : Registry)
    (ip : String) (now : ℚ) (hA : cfg.Active = true) :
    (∃ c, (rateLimitStep cfg reg ip now).2 ip = some c ∧ c.lastSeen = now) ∧
      ∀ c0 c, reg ip = some c0 → c0.lastSeen ≤ now →
        (rateLimitStep cfg reg ip now).2 ip = some c →
        c0.lastSeen ≤ c.lastSeen := by
  constructor
  · exact ⟨_, step_entry_now cfg reg ip now hA, rfl⟩
  · intro c0 c h0 hle hc
    rw [step_entry_now cfg reg ip now hA] at hc
    injection hc with hc
    rw [← hc]
    exact hle

/-- C8 witness: a rejected request (burst 0) still updates the fresh
entry's last-seen timestamp to the request time, and a later request does
not decrease it. -/
theorem C8_lastSeen_monotone_witness :
    (∃ c, (rateLimitStep ⟨1, 0, true⟩ Registry.empty "k" 5).2 "k" = some c ∧
        c.lastSeen = 5) ∧
      ∀ c0 c, Registry.empty "k" = some c0 → c0.lastSeen ≤ 5 →
        (rateLimitStep ⟨1, 0, true⟩ Registry.empty "k" 5).2 "k" = some c →
        c0.lastSeen ≤ c.lastSeen :=
  C8_lastSeen_monotone ⟨1, 0, true⟩ Registry.empty "k" 5 rfl

/-! Claim C9. -/

/-- C9: for every configuration, registry state, client identifier and
request time, the event trace of one handler step never performs I/O (a
response write or a downstream handler call) while the registry lock is
held: the lock is released before the rejection response is written and
before the downstream handler is invoked. -/
theorem C9_lock_released_before_io (cfg : Config.Limiter) (reg : Registry)
    (ip : String) (now : ℚ) :
    ioUnderLock 0 (rateLimitEvents cfg reg ip now) = false := by
  unfold rateLimitEvents
  by_cases hA : cfg.Active
  · rcases hr : reg ip with _ | c
    · simp only [hA, if_true, hr]
      by_cases hok : ((Rate.newLimiter cfg.RPS cfg.Burst now).allow now).1 <;>
        simp [hok, ioUnderLock]
    · simp only [hA, if_true, hr]
      by_cases hok : (c.limiter.allow now).1 <;> simp [hok, ioUnderLock]
  · simp [hA, ioUnderLock]

/-! Claim C10. -/

/-- C10: with the limiter active, a positive rate and burst = 0, every
request — in particular the very first from a new client identifier, and
any request after any trace of earlier requests — is rejected with the 429
rate-limit-exceeded response, yet a registry entry for the identifier is
created (or kept) with its last-seen timestamp set to the request time. -/
theorem C10_burst_zero_rejects_all (cfg : Config.Limiter)
    (hA : cfg.Active = true) (hB : cfg.Burst = 0) (hR : 0 < cfg.RPS)
    (rs : List (String × ℚ)) (ip : String) (now : ℚ) :
    (rateLimitStep cfg (runTrace cfg Registry.empty rs).2 ip now).1 =
        rateLimitExceededResponse ∧
      ∃ c, (rateLimitStep cfg (runTrace cfg Registry.empty rs).2 ip now).2 ip =
          some c ∧ c.lastSeen = now := by
  set reg := (runTrace cfg Registry.empty rs).2 with hregdef
  have hinv : ∀ ip2 c, reg ip2 = some c → c.limiter.burst = cfg.Burst :=
    runTrace_burst_inv cfg rs Registry.empty
      (fun ip2 c hc => absurd hc (by simp [Registry.empty]))
  have hnb : ¬ (1 : ℤ) ≤ cfg.Burst := by omega
  have hrej : (rateLimitStep cfg reg ip now).1 = rateLimitExceededResponse := by
    rcases hr : reg ip with _ | c
    · have hstep := step_fresh cfg reg ip now hA hr
      rw [newLimiter_allow] at hstep
      simp only [hnb, if_false] at hstep
      rw [hstep]
      simp
    · have hb0 : ¬ (1 : ℤ) ≤ c.limiter.burst := by
        rw [hinv ip c hr]
        exact hnb
      have hfalse : (c.limiter.allow now).1 = false := by
        simp [Rate.Limiter.allow, hb0]
      rw [step_found cfg reg ip now c hA hr]
      simp [hfalse]
  exact ⟨hrej, _, step_entry_now cfg reg ip now hA, rfl⟩

/-- C10 witness: with rate 1, burst 0, the very first request from a fresh
identifier is rejected with the 429 response while its registry entry is
created with the request time as last-seen timestamp. -/
theorem C10_burst_zero_rejects_all_witness :
    (rateLimitStep ⟨1, 0, true⟩ (runTrace ⟨1, 0, true⟩ Registry.empty []).2
          "k" 7).1 = rateLimitExceededResponse ∧
      ∃ c, (rateLimitStep ⟨1, 0, true⟩
            (runTrace ⟨1, 0, true⟩ Registry.empty []).2 "k" 7).2 "k" =
          some c ∧ c.lastSeen = 7 :=
  C10_burst_zero_rejects_all ⟨1, 0, true⟩ rfl rfl (by decide) [] "k" 7

end GoServiceToolkit
